import Mathlib

/-!
# Button debouncer of the Silberling Power Module (`button.h`)

Shallow embedding of `class Button` and a verification of its behaviour on
scripted sample sequences.

Modelling conventions.

* `uint8_t btn` and `uint16_t state` are natural numbers; every store into
  `state` is reduced modulo `2 ^ 16`, exactly where the C++ assignment
  converts the wider right-hand side back to `uint16_t`.
* The right-hand sides are evaluated at the width C++ gives them.  In
  `debounce` the operands are promoted to `int`/`unsigned int`; in `longpress`
  the literal `0xf000000000000000` has a 64-bit unsigned type, so the whole
  expression is 64 bits wide.  With `state < 2 ^ 16` and a sample in `{0, 1}`
  the value before the store is below `2 ^ 64` in both cases, and bits lost by a
  16-bit intermediate shift are discarded by the store anyway, hence unbounded
  naturals followed by the reduction give the stored value on every platform.
* `digitalRead` is the host primitive; it is passed in as the snapshot of the
  input lines at the moment of the call (pin number to level, `1` high, `0` low).
* `pinMode` is the host primitive configuring a line; `begin` reports the call
  it makes as an emitted hardware call.
-/

namespace Silberling

/-- Hardware configuration calls a `Button` issues to the host (`Arduino.h`):
`pinMode(pin, INPUT_PULLUP)`. -/
inductive HwCall where
  | pinModeInputPullup (pin : Nat)
  deriving DecidableEq, Repr

/-- The private members of `class Button`: `uint8_t btn; uint16_t state;`. -/
structure Button where
  btn : Nat
  state : Nat
  deriving DecidableEq, Repr

/-- A snapshot of the input lines: what `digitalRead(pin)` returns at one instant. -/
abbrev Lines := Nat → Nat

namespace Button

/-- `void begin(uint8_t button) { btn = button; state = 0; pinMode(btn, INPUT_PULLUP); }` -/
def begin (b : Button) (button : Nat) : Button × List HwCall :=
  let b1 : Button := { b with btn := button }
  let b2 : Button := { b1 with state := 0 }
  (b2, [HwCall.pinModeInputPullup b2.btn])

/-- The body of `debounce`:
`state = (state<<1) | digitalRead(btn) | 0xFFF8; return (state == 0xFFFC);` -/
def debounce (b : Button) (digitalRead : Lines) : Bool × Button :=
  let b1 : Button :=
    { b with state := ((b.state <<< 1) ||| digitalRead b.btn ||| 0xFFF8) % 2 ^ 16 }
  (decide (b1.state = 0xFFFC), b1)

/-- The body of `longpress`:
`state = (state<<1) | digitalRead(btn) | 0xf000000000000000;`
`return (state == 0xf800000000000000);`
The member `state` is the same `uint16_t` that `debounce` uses. -/
def longpress (b : Button) (digitalRead : Lines) : Bool × Button :=
  let b1 : Button :=
    { b with state := ((b.state <<< 1) ||| digitalRead b.btn ||| 0xf000000000000000) % 2 ^ 16 }
  (decide (b1.state = 0xf800000000000000), b1)

end Button

/-- The two poll operations a caller can invoke. -/
inductive Poll where
  | debounce
  | longpress
  deriving DecidableEq, Repr

namespace Button

/-- One call of the chosen poll operation. -/
def poll (b : Button) (op : Poll) (digitalRead : Lines) : Bool × Button :=
  match op with
  | Poll.debounce => b.debounce digitalRead
  | Poll.longpress => b.longpress digitalRead

/-- A caller's schedule: successive poll calls on one instance, each with the
line snapshot it reads.  The list of returned booleans, in call order. -/
def run (b : Button) : List (Poll × Lines) → List Bool
  | [] => []
  | (op, rd) :: rest => (b.poll op rd).1 :: run (b.poll op rd).2 rest

/-- The instance after a schedule has been executed. -/
def after (b : Button) : List (Poll × Lines) → Button
  | [] => b
  | (op, rd) :: rest => after (b.poll op rd).2 rest

/-- One `debounce` call per snapshot. -/
def debounceAll (b : Button) (reads : List Lines) : List Bool :=
  b.run (reads.map fun rd => (Poll.debounce, rd))

/-- One `longpress` call per snapshot. -/
def longpressAll (b : Button) (reads : List Lines) : List Bool :=
  b.run (reads.map fun rd => (Poll.longpress, rd))

end Button

/-- The levels seen on pin `p` over a list of snapshots. -/
def samples (p : Nat) (reads : List Lines) : List Nat :=
  reads.map fun rd => rd p

/-- A snapshot in which every line reads `v`. -/
def level (v : Nat) : Lines := fun _ => v

/-- High line (released button, pull-up). -/
def H : Lines := level 1

/-- Low line (pressed button). -/
def L : Lines := level 0

/-- The samples that can still influence a `debounce` result: the two low bits of
the register (older first), followed by the levels the scheduled calls read on
the bound pin. -/
def history (b : Button) (sched : List (Poll × Lines)) : List Nat :=
  [b.state / 2 % 2, b.state % 2] ++ sched.map fun x => x.2 b.btn

/-- Samples `i, ..., j` of `s` exist and are all low. -/
def lowOn (s : List Nat) (i j : Nat) : Prop :=
  ∀ k, k < j + 1 → i ≤ k → s[k]? = some 0

instance (s : List Nat) (i j : Nat) : Decidable (lowOn s i j) := by
  unfold lowOn; infer_instance

/-- Samples `i, ..., j` form a maximal run of consecutive low samples: the sample
before `i` and the sample after `j`, when there is one, are not low. -/
def maxLowRun (s : List Nat) (i j : Nat) : Prop :=
  i ≤ j ∧ lowOn s i j ∧ (i = 0 ∨ s[i - 1]? ≠ some 0) ∧ s[j + 1]? ≠ some 0

instance (s : List Nat) (i j : Nat) : Decidable (maxLowRun s i j) := by
  unfold maxLowRun; infer_instance

namespace Button

/-- The results of the `debounce` calls of a schedule, in call order. -/
def debounceResults (b : Button) (sched : List (Poll × Lines)) : List Bool :=
  ((sched.zip (b.run sched)).filter fun x => decide (x.1.1 = Poll.debounce)).map fun x => x.2

/-- The snapshots read by the `debounce` calls of a schedule, in call order. -/
def debounceReads (sched : List (Poll × Lines)) : List Lines :=
  (sched.filter fun x => decide (x.1 = Poll.debounce)).map fun x => x.2

/-- A main loop that drives both polls on one instance once per snapshot, in
the order given by `debounceFirst`; per snapshot the pair
(`debounce` result, `longpress` result). -/
def bothAll (b : Button) (debounceFirst : Bool) : List Lines → List (Bool × Bool)
  | [] => []
  | rd :: rest =>
    if debounceFirst then
      ((b.debounce rd).1, ((b.debounce rd).2.longpress rd).1) ::
        bothAll ((b.debounce rd).2.longpress rd).2 debounceFirst rest
    else
      (((b.longpress rd).2.debounce rd).1, (b.longpress rd).1) ::
        bothAll ((b.longpress rd).2.debounce rd).2 debounceFirst rest

/-- Counterfactual, not the source: the statements of `longpress` executed on a
register as wide as its literals (`uint64_t state`).  It only serves to locate
the sample on which the comparison would be met with such a register. -/
def longpress64 (b : Button) (digitalRead : Lines) : Bool × Button :=
  let b1 : Button :=
    { b with state := ((b.state <<< 1) ||| digitalRead b.btn ||| 0xf000000000000000) % 2 ^ 64 }
  (decide (b1.state = 0xf800000000000000), b1)

/-- Counterfactual: one `longpress64` call per snapshot. -/
def longpress64All (b : Button) : List Lines → List Bool
  | [] => []
  | rd :: rest => (b.longpress64 rd).1 :: longpress64All (b.longpress64 rd).2 rest

end Button

/-- Scenario 4 of the specification: `HHH`, then sixty `L`, then `HH`. -/
def scenario4 : List Lines :=
  [H, H, H] ++ List.replicate 60 L ++ [H, H]

/-- An idle line polled alternately by `debounce` and `longpress`, six calls. -/
def idleSchedule : List (Poll × Lines) :=
  [(Poll.debounce, H), (Poll.longpress, H), (Poll.debounce, H), (Poll.longpress, H),
    (Poll.debounce, H), (Poll.longpress, H)]

/-- Scenario 6 of the specification: `HHLLHHLLHHH`. -/
def scenario6 : List Lines :=
  [H, H, L, L, H, H, L, L, H, H, H]

/-- The samples read on pin `p` by the calls of a schedule, in call order,
preceded by three zeros that stand for the samples before `begin`. -/
def paddedSamples (p : Nat) (sched : List (Poll × Lines)) : List Nat :=
  [0, 0, 0] ++ samples p (sched.map Prod.snd)

/-- A schedule mixing both polls: `debounce H`, `longpress L`, `debounce L`,
`longpress H`. -/
def mixedSchedule : List (Poll × Lines) :=
  [(Poll.debounce, H), (Poll.longpress, L), (Poll.debounce, L), (Poll.longpress, H)]

end Silberling

namespace Silberling

/-! ## Register arithmetic -/

theorem testBit_FFF8 (i : Nat) : Nat.testBit 0xFFF8 i = decide (3 ≤ i ∧ i < 16) := by
  by_cases h : i < 16
  · interval_cases i <;> rfl
  · have h2 : (0xFFF8 : Nat) < 2 ^ i :=
      lt_of_lt_of_le (by norm_num : (0xFFF8 : Nat) < 2 ^ 16)
        (Nat.pow_le_pow_right (by norm_num) (by omega))
    rw [Nat.testBit_lt_two_pow h2]
    simp; omega

/-- OR-ing the short-press mask and storing to 16 bits keeps the low three bits
and sets the thirteen bits above them. -/
theorem or_FFF8_mod (y : Nat) : (y ||| 0xFFF8) % 2 ^ 16 = 0xFFF8 + y % 8 := by
  have e : 0xFFF8 + y % 8 = 2 ^ 3 * 0x1FFF ||| y % 2 ^ 3 := by
    rw [← Nat.mul_add_lt_is_or (Nat.mod_lt _ (by norm_num))]
  rw [e]
  apply Nat.eq_of_testBit_eq
  intro i
  have m : (2 ^ 3 * 0x1FFF : Nat) = 0xFFF8 := by norm_num
  rw [m]
  simp only [Nat.testBit_mod_two_pow, Nat.testBit_or, testBit_FFF8]
  by_cases h3 : i < 3
  · have h3n : ¬ 3 ≤ i := by omega
    have h16 : i < 16 := by omega
    simp [h3, h3n, h16]
  · have h3p : 3 ≤ i := by omega
    by_cases h16 : i < 16 <;> simp [h3, h3p, h16]

/-- For a sample in `{0, 1}` the shift-and-OR is `2 * st + s`. -/
theorem shl_or_sample (st s : Nat) (hs : s ≤ 1) : (st <<< 1) ||| s = 2 * st + s := by
  rw [Nat.shiftLeft_eq, pow_one, Nat.mul_comm]
  have := Nat.mul_add_lt_is_or (show s < 2 ^ 1 by omega) st
  rw [pow_one] at this
  exact this.symm

/-- The long-press mask has no bit below bit 16, so OR-ing it and storing to
16 bits changes nothing. -/
theorem or_longmask_mod (y : Nat) : (y ||| 0xf000000000000000) % 2 ^ 16 = y % 2 ^ 16 := by
  apply Nat.eq_of_testBit_eq
  intro i
  simp only [Nat.testBit_mod_two_pow, Nat.testBit_or]
  by_cases h16 : i < 16
  · have hk : Nat.testBit 0xf000000000000000 i = false := by
      interval_cases i <;> rfl
    simp [h16, hk]
  · simp [h16]

/-- Reduction modulo `2 ^ w` commutes with OR. -/
theorem or_mod_two_pow_distrib (a c w : Nat) :
    (a ||| c) % 2 ^ w = a % 2 ^ w ||| c % 2 ^ w := by
  apply Nat.eq_of_testBit_eq
  intro i
  simp only [Nat.testBit_mod_two_pow, Nat.testBit_or]
  by_cases h : i < w <;> simp [h]

/-- Where `int` is 16 bits wide (AVR) the shift in `debounce` is computed in
unsigned 16-bit arithmetic; the value stored is the same. -/
theorem debounce_store_16bit_shift (st s : Nat) :
    (((st <<< 1) % 2 ^ 16) ||| s ||| 0xFFF8) % 2 ^ 16 = ((st <<< 1) ||| s ||| 0xFFF8) % 2 ^ 16 := by
  rw [or_mod_two_pow_distrib, or_mod_two_pow_distrib _ s, Nat.mod_mod,
    ← or_mod_two_pow_distrib _ s, ← or_mod_two_pow_distrib]

/-- The 64-bit expression in `longpress` does not overflow before the store: for
a 16-bit register and a sample in `0, 1` it is below `2 ^ 64`, hence the stored
value is the low 16 bits of the mathematical value. -/
theorem longpress_no_overflow (st s : Nat) (hst : st < 2 ^ 16) (hs : s ≤ 1) :
    (st <<< 1) ||| s ||| 0xf000000000000000 < 2 ^ 64 := by
  apply Nat.or_lt_two_pow
  · apply Nat.or_lt_two_pow
    · rw [Nat.shiftLeft_eq]
      calc st * 2 ^ 1 < 2 ^ 16 * 2 ^ 1 := by omega
        _ ≤ 2 ^ 64 := by norm_num
    · calc s ≤ 1 := hs
        _ < 2 ^ 64 := by norm_num
  · norm_num

namespace Button

theorem begin_state (b : Button) (p : Nat) : (b.begin p).1.state = 0 := rfl

theorem begin_btn (b : Button) (p : Nat) : (b.begin p).1.btn = p := rfl

theorem debounce_btn (b : Button) (rd : Lines) : (b.debounce rd).2.btn = b.btn := rfl

theorem longpress_btn (b : Button) (rd : Lines) : (b.longpress rd).2.btn = b.btn := rfl

theorem poll_btn (b : Button) (op : Poll) (rd : Lines) : (b.poll op rd).2.btn = b.btn := by
  cases op <;> rfl

/-- The register after a `debounce` call that read a sample in `{0, 1}`. -/
theorem debounce_state (b : Button) (rd : Lines) (hs : rd b.btn ≤ 1) :
    (b.debounce rd).2.state = 0xFFF8 + (2 * b.state + rd b.btn) % 8 := by
  show ((b.state <<< 1) ||| rd b.btn ||| 0xFFF8) % 2 ^ 16 = _
  rw [shl_or_sample _ _ hs, or_FFF8_mod]

/-- The register after a `longpress` call that read a sample in `{0, 1}`. -/
theorem longpress_state (b : Button) (rd : Lines) (hs : rd b.btn ≤ 1) :
    (b.longpress rd).2.state = (2 * b.state + rd b.btn) % 2 ^ 16 := by
  show ((b.state <<< 1) ||| rd b.btn ||| 0xf000000000000000) % 2 ^ 16 = _
  rw [shl_or_sample _ _ hs, or_longmask_mod]

/-- What `debounce` returns is the comparison of the stored register. -/
theorem debounce_fst (b : Button) (rd : Lines) :
    (b.debounce rd).1 = decide ((b.debounce rd).2.state = 0xFFFC) := rfl

/-- A `debounce` call fires exactly when the two previous window bits are `1, 0`
and the sample read is low. -/
theorem debounce_fires_iff (b : Button) (rd : Lines) (hs : rd b.btn ≤ 1) :
    (b.debounce rd).1 = true ↔ b.state % 4 = 2 ∧ rd b.btn = 0 := by
  rw [debounce_fst, decide_eq_true_iff, debounce_state b rd hs]
  omega

/-- The stored register is below `2 ^ 16`, the comparison constant is not. -/
theorem longpress_false (b : Button) (rd : Lines) : (b.longpress rd).1 = false := by
  show decide (((b.state <<< 1) ||| rd b.btn ||| 0xf000000000000000) % 2 ^ 16
    = 0xf800000000000000) = false
  rw [decide_eq_false_iff_not]
  intro h
  have hlt : ((b.state <<< 1) ||| rd b.btn ||| 0xf000000000000000) % 2 ^ 16 < 2 ^ 16 :=
    Nat.mod_lt _ (by norm_num)
  rw [h] at hlt
  norm_num at hlt

end Button

/-! ## Schedules -/

namespace Button

theorem run_length (b : Button) (sched : List (Poll × Lines)) :
    (b.run sched).length = sched.length := by
  induction sched generalizing b with
  | nil => rfl
  | cons x rest ih => simp [run, ih]

theorem debounceAll_length (b : Button) (reads : List Lines) :
    (b.debounceAll reads).length = reads.length := by
  simp [debounceAll, run_length]

theorem longpressAll_length (b : Button) (reads : List Lines) :
    (b.longpressAll reads).length = reads.length := by
  simp [longpressAll, run_length]

/-- Either poll shifts the sample it read into the low bits of the register. -/
theorem poll_low_bits (b : Button) (op : Poll) (rd : Lines) (hs : rd b.btn ≤ 1) :
    (b.poll op rd).2.state / 2 % 2 = b.state % 2 ∧ (b.poll op rd).2.state % 2 = rd b.btn := by
  cases op
  · show (b.debounce rd).2.state / 2 % 2 = _ ∧ (b.debounce rd).2.state % 2 = _
    rw [debounce_state b rd hs]; omega
  · show (b.longpress rd).2.state / 2 % 2 = _ ∧ (b.longpress rd).2.state % 2 = _
    rw [longpress_state b rd hs]; norm_num; omega

/-- After one call the history is the old one with its oldest entry dropped. -/
theorem history_poll (b : Button) (op : Poll) (rd : Lines) (rest : List (Poll × Lines))
    (hs : rd b.btn ≤ 1) :
    history (b.poll op rd).2 rest = (history b ((op, rd) :: rest)).tail := by
  obtain ⟨h1, h2⟩ := poll_low_bits b op rd hs
  simp [history, h1, h2, poll_btn]

/-- Characterisation of the calls of a schedule that return `true`: the call is
a `debounce` call and the last three samples shifted into the register, by
whichever operation, are `1, 0, 0`. -/
theorem run_fires_iff (b : Button) (sched : List (Poll × Lines))
    (hs : ∀ x ∈ sched, x.2 b.btn ≤ 1) (n : Nat) :
    (b.run sched)[n]? = some true ↔
      (sched[n]?).map Prod.fst = some Poll.debounce ∧
      (history b sched)[n]? = some 1 ∧ (history b sched)[n + 1]? = some 0 ∧
      (history b sched)[n + 2]? = some 0 := by
  induction sched generalizing b n with
  | nil => simp [run]
  | cons x rest ih =>
    obtain ⟨op, rd⟩ := x
    have hrd : rd b.btn ≤ 1 := hs (op, rd) (List.mem_cons_self _ _)
    cases n with
    | zero =>
      cases op
      · have := debounce_fires_iff b rd hrd
        simp only [run, poll, history]
        simp
        rw [this]; omega
      · simp [run, poll, longpress_false]
    | succ n =>
      have hrest : ∀ x ∈ rest, x.2 (b.poll op rd).2.btn ≤ 1 := by
        intro x hx
        rw [poll_btn]
        exact hs x (List.mem_cons_of_mem _ hx)
      have := ih (b.poll op rd).2 hrest n
      rw [history_poll b op rd rest hrd] at this
      simp only [run, List.getElem?_cons_succ]
      rw [this]
      simp [history]

end Button

namespace Button

/-- The characterisation for `debounce`-only polling, in terms of the samples on
the bound pin. -/
theorem debounceAll_fires_iff (b : Button) (reads : List Lines)
    (hs : ∀ rd ∈ reads, rd b.btn ≤ 1) (n : Nat) :
    (b.debounceAll reads)[n]? = some true ↔
      ([b.state / 2 % 2, b.state % 2] ++ samples b.btn reads)[n]? = some 1 ∧
      ([b.state / 2 % 2, b.state % 2] ++ samples b.btn reads)[n + 1]? = some 0 ∧
      ([b.state / 2 % 2, b.state % 2] ++ samples b.btn reads)[n + 2]? = some 0 := by
  have hs2 : ∀ x ∈ reads.map (fun rd => (Poll.debounce, rd)), x.2 b.btn ≤ 1 := by
    intro x hx
    obtain ⟨rd, hrd, rfl⟩ := List.mem_map.mp hx
    exact hs rd hrd
  have key := run_fires_iff b (reads.map fun rd => (Poll.debounce, rd)) hs2 n
  have hh : history b (reads.map fun rd => (Poll.debounce, rd))
      = [b.state / 2 % 2, b.state % 2] ++ samples b.btn reads := by
    simp [history, samples]
  rw [hh] at key
  unfold debounceAll
  rw [key]
  constructor
  · exact fun h => h.2
  · intro h
    refine ⟨?_, h⟩
    have h3 := h.2.2
    have hlen : n < reads.length := by
      by_contra hc
      have : ([b.state / 2 % 2, b.state % 2] ++ samples b.btn reads)[n + 2]? = none := by
        apply List.getElem?_eq_none
        simp [samples]; omega
      rw [this] at h3
      exact absurd h3 (by simp)
    simp [List.getElem?_eq_getElem, hlen]

end Button

/-! ## Short press -/

namespace Button

/-- After `begin(p)` the two history entries standing for samples before `begin`
are `0`, so the first two calls never fire and from the third on the call
reading sample `n` fires exactly on `1, 0, 0`. -/
theorem begin_debounceAll_fires_iff (b0 : Button) (p : Nat) (reads : List Lines)
    (hs : ∀ rd ∈ reads, rd p ≤ 1) (n : Nat) :
    ((b0.begin p).1.debounceAll reads)[n]? = some true ↔
      2 ≤ n ∧ (samples p reads)[n - 2]? = some 1 ∧ (samples p reads)[n - 1]? = some 0 ∧
        (samples p reads)[n]? = some 0 := by
  rw [debounceAll_fires_iff (b0.begin p).1 reads hs n]
  simp only [begin_state, begin_btn]
  match n with
  | 0 => simp
  | 1 => simp
  | m + 2 => simp

/-- An index at which the samples are known is an index of the result list. -/
theorem lt_debounceAll_length (b : Button) (p : Nat) (reads : List Lines) (n v : Nat)
    (h : (samples p reads)[n]? = some v) : n < (b.debounceAll reads).length := by
  rw [debounceAll_length]
  by_contra hc
  rw [List.getElem?_eq_none (by simp [samples]; omega)] at h
  simp at h

/-- A call that does not return `true` returns `false`. -/
theorem getElem?_false_of_not_true (res : List Bool) (n : Nat) (hlen : n < res.length)
    (h : ¬ res[n]? = some true) : res[n]? = some false := by
  rw [List.getElem?_eq_getElem hlen] at h ⊢
  cases hv : res[n] with
  | false => rfl
  | true => rw [hv] at h; exact absurd rfl h

end Button

/-- C1: on an instance just initialised by `begin(p)` and polled only by
`debounce`, one sample per call, every call returns (the result list is as long
as the sample list) and the call that reads sample `n` returns `true` if and
only if `n ≥ 2`, sample `n - 2` is high and samples `n - 1` and `n` are low. -/
theorem debounce_true_iff_high_low_low (b0 : Button) (p : Nat) (reads : List Lines)
    (hs : ∀ rd ∈ reads, rd p ≤ 1) (n : Nat) :
    ((b0.begin p).1.debounceAll reads).length = reads.length ∧
    (((b0.begin p).1.debounceAll reads)[n]? = some true ↔
      2 ≤ n ∧ (samples p reads)[n - 2]? = some 1 ∧ (samples p reads)[n - 1]? = some 0 ∧
        (samples p reads)[n]? = some 0) :=
  ⟨Button.debounceAll_length _ _, Button.begin_debounceAll_fires_iff b0 p reads hs n⟩

/-- Witness for C1 on scenario 1, `HHHHLLHHH`: the sixth call (index 5) fires. -/
theorem debounce_true_iff_high_low_low_witness :
    (∀ rd ∈ [H, H, H, H, L, L, H, H, H], rd 2 ≤ 1) ∧
    (((Button.mk 9 77).begin 2).1.debounceAll [H, H, H, H, L, L, H, H, H]).length = 9 ∧
    (((Button.mk 9 77).begin 2).1.debounceAll [H, H, H, H, L, L, H, H, H])[5]? = some true :=
  have hs : ∀ rd ∈ [H, H, H, H, L, L, H, H, H], rd 2 ≤ 1 := by decide
  ⟨hs, (debounce_true_iff_high_low_low (Button.mk 9 77) 2 _ hs 5).1,
    (debounce_true_iff_high_low_low (Button.mk 9 77) 2 _ hs 5).2.2
      ⟨by decide, by decide, by decide, by decide⟩⟩

/-! ## Long press and the shared register -/

namespace Button

/-- No call of `longpress` in a schedule returns `true`. -/
theorem run_longpress_false (b : Button) (sched : List (Poll × Lines)) (n : Nat) (rd : Lines)
    (hn : sched[n]? = some (Poll.longpress, rd)) : (b.run sched)[n]? = some false := by
  induction sched generalizing b n with
  | nil => simp at hn
  | cons x rest ih =>
    cases n with
    | zero =>
      simp only [List.getElem?_cons_zero, Option.some.injEq] at hn
      subst hn
      simp [run, poll, longpress_false]
    | succ n =>
      simp only [List.getElem?_cons_succ] at hn
      obtain ⟨op, rd0⟩ := x
      simpa [run] using ih (b.poll op rd0).2 n hn

/-- Polling only `longpress` yields `false` on every call. -/
theorem longpressAll_eq_replicate (b : Button) (reads : List Lines) :
    b.longpressAll reads = List.replicate reads.length false := by
  induction reads generalizing b with
  | nil => rfl
  | cons rd rest ih =>
    have := ih (b.longpress rd).2
    unfold longpressAll at this ⊢
    simp [run, poll, longpress_false, this, List.replicate_succ]

/-- With a 64-bit register the comparison in `longpress` would be met on exactly
one call of scenario 4, the one reading the 59th low sample (index 61), one
sample before the end of the low run. -/
theorem longpress64_scenario4 :
    ((Button.mk 0 0).begin 2).1.longpress64All scenario4
      = List.replicate 61 false ++ [true] ++ List.replicate 3 false := by
  decide

end Button

/-- C2 (the code diverges from the claim): on scenario 4, `HHH`, sixty `L`, `HH`,
polled by `longpress` after `begin`, all 65 calls return `false`; in particular
the call reading the last `L` (index 62) returns `false`, and no long press is
reported. -/
theorem longpress_scenario4_never_true (b0 : Button) (p : Nat) :
    (b0.begin p).1.longpressAll scenario4 = List.replicate 65 false ∧
    ((b0.begin p).1.longpressAll scenario4)[62]? = some false := by
  have h := Button.longpressAll_eq_replicate (b0.begin p).1 scenario4
  have hl : scenario4.length = 65 := by decide
  rw [hl] at h
  rw [h]
  exact ⟨rfl, by decide⟩

/-- C3, counterexample: after `begin`, `debounce` reads `H`, `longpress` reads `L`,
`debounce` reads `L`.  The `longpress` call changes the register (`0xFFF9` becomes
`0xFFF2`) and the two `debounce` calls return `false, true`, whereas without the
`longpress` call they return `false, false`. -/
theorem longpress_interleaved_changes_debounce :
    ((((Button.mk 0 0).begin 2).1.debounce H).2.longpress L).2.state = 0xFFF2 ∧
    (((Button.mk 0 0).begin 2).1.debounce H).2.state = 0xFFF9 ∧
    ((Button.mk 0 0).begin 2).1.debounceResults
        [(Poll.debounce, H), (Poll.longpress, L), (Poll.debounce, L)] = [false, true] ∧
    ((Button.mk 0 0).begin 2).1.debounceAll
        (Button.debounceReads [(Poll.debounce, H), (Poll.longpress, L), (Poll.debounce, L)])
      = [false, false] := by
  decide

/-- C3, amended: `debounce` and `longpress` operate on the same register.  A
`longpress` call that reads a sample in `{0, 1}` leaves the pin unchanged and
shifts that sample into the low bits of the register
(`new state mod 8 = (2 * state + sample) mod 8`), and every `debounce` call of an
interleaved schedule returns what the call at the same position returns when all
samples of the schedule are read by `debounce` calls. -/
theorem debounce_sees_longpress_samples (b : Button) (sched : List (Poll × Lines))
    (hs : ∀ x ∈ sched, x.2 b.btn ≤ 1) :
    (∀ rd : Lines, rd b.btn ≤ 1 →
      (b.longpress rd).2.btn = b.btn ∧
      (b.longpress rd).2.state % 8 = (2 * b.state + rd b.btn) % 8) ∧
    (∀ n : Nat, (sched[n]?).map Prod.fst = some Poll.debounce →
      (b.run sched)[n]? = (b.debounceAll (sched.map Prod.snd))[n]?) := by
  constructor
  · intro rd hrd
    refine ⟨Button.longpress_btn b rd, ?_⟩
    rw [Button.longpress_state b rd hrd]
    norm_num
  · intro n hn
    have hlen : n < sched.length := by
      by_contra hc
      rw [List.getElem?_eq_none (by omega)] at hn
      simp at hn
    have hs2 : ∀ rd ∈ sched.map Prod.snd, rd b.btn ≤ 1 := by
      intro rd hrd
      obtain ⟨x, hx, rfl⟩ := List.mem_map.mp hrd
      exact hs x hx
    have k1 := Button.run_fires_iff b sched hs n
    have k2 := Button.debounceAll_fires_iff b (sched.map Prod.snd) hs2 n
    have hh : history b sched = [b.state / 2 % 2, b.state % 2] ++ samples b.btn (sched.map Prod.snd) := by
      simp [history, samples]
    rw [hh] at k1
    have l1 : n < (b.run sched).length := by rw [Button.run_length]; exact hlen
    have l2 : n < (b.debounceAll (sched.map Prod.snd)).length := by
      rw [Button.debounceAll_length]; simpa using hlen
    rw [List.getElem?_eq_getElem l1, List.getElem?_eq_getElem l2] at *
    simp only [Option.some.injEq] at k1 k2 ⊢
    rw [Bool.eq_iff_iff, k1, k2]
    simp [hn]

/-- Witness for the amended C3: in `begin; debounce H; longpress L; debounce L` the
third call returns what the third call of `debounce H; debounce L; debounce L`
returns. -/
theorem debounce_sees_longpress_samples_witness :
    (∀ x ∈ [(Poll.debounce, H), (Poll.longpress, L), (Poll.debounce, L)],
        x.2 ((Button.mk 0 0).begin 2).1.btn ≤ 1) ∧
    (((Button.mk 0 0).begin 2).1.run
        [(Poll.debounce, H), (Poll.longpress, L), (Poll.debounce, L)])[2]?
      = (((Button.mk 0 0).begin 2).1.debounceAll [H, L, L])[2]? :=
  have hs : ∀ x ∈ [(Poll.debounce, H), (Poll.longpress, L), (Poll.debounce, L)],
      x.2 ((Button.mk 0 0).begin 2).1.btn ≤ 1 := by decide
  ⟨hs, (debounce_sees_longpress_samples ((Button.mk 0 0).begin 2).1 _ hs).2 2 rfl⟩

/-! ## Edge-triggered behaviour of the short press -/

namespace Button

/-- Two different calls inside one stretch of low samples do not both fire. -/
theorem begin_debounceAll_not_twice (b0 : Button) (p : Nat) (reads : List Lines)
    (hs : ∀ rd ∈ reads, rd p ≤ 1) (i j : Nat) (hrun : lowOn (samples p reads) i j)
    (m n : Nat) (him : i ≤ m) (hmn : m < n) (hnj : n ≤ j)
    (hm : ((b0.begin p).1.debounceAll reads)[m]? = some true) :
    ¬ ((b0.begin p).1.debounceAll reads)[n]? = some true := by
  intro hn
  obtain ⟨hn2, hnhi, -, -⟩ := (begin_debounceAll_fires_iff b0 p reads hs n).1 hn
  obtain ⟨hm2, -, hmlo, -⟩ := (begin_debounceAll_fires_iff b0 p reads hs m).1 hm
  by_cases hc : m ≤ n - 2
  · have := hrun (n - 2) (by omega) (by omega)
    rw [this] at hnhi
    simp at hnhi
  · have e : m - 1 = n - 2 := by omega
    rw [e, hnhi] at hmlo
    simp at hmlo

end Button

/-- C4: polled only by `debounce` after `begin(p)`, within any stretch `i..j` of
consecutive low samples (in particular a maximal run) at most one call returns
`true`: two calls of the stretch that both return `true` are the same call, and
once a call returned `true` every later call of the stretch returns `false`. -/
theorem debounce_at_most_once_per_low_run (b0 : Button) (p : Nat) (reads : List Lines)
    (hs : ∀ rd ∈ reads, rd p ≤ 1) (i j : Nat) (hrun : lowOn (samples p reads) i j) :
    (∀ m n : Nat, i ≤ m → m ≤ j → i ≤ n → n ≤ j →
      ((b0.begin p).1.debounceAll reads)[m]? = some true →
      ((b0.begin p).1.debounceAll reads)[n]? = some true → m = n) ∧
    (∀ m n : Nat, i ≤ m → m < n → n ≤ j →
      ((b0.begin p).1.debounceAll reads)[m]? = some true →
      ((b0.begin p).1.debounceAll reads)[n]? = some false) := by
  constructor
  · intro m n him hmj hin hnj hm hn
    rcases Nat.lt_trichotomy m n with h | h | h
    · exact absurd hn (Button.begin_debounceAll_not_twice b0 p reads hs i j hrun m n him h hnj hm)
    · exact h
    · exact absurd hm (Button.begin_debounceAll_not_twice b0 p reads hs i j hrun n m hin h hmj hn)
  · intro m n him hmn hnj hm
    have hlen := Button.lt_debounceAll_length (b0.begin p).1 p reads n 0
      (hrun n (by omega) (by omega))
    exact Button.getElem?_false_of_not_true _ n hlen
      (Button.begin_debounceAll_not_twice b0 p reads hs i j hrun m n him hmn hnj hm)

/-- Witness for C4 on scenario 3, `HHHLLLLHHH`: the low run is `3..6`, the call at
index 4 fires and the call at index 6 returns `false`. -/
theorem debounce_at_most_once_per_low_run_witness :
    (∀ rd ∈ [H, H, H, L, L, L, L, H, H, H], rd 2 ≤ 1) ∧
    maxLowRun (samples 2 [H, H, H, L, L, L, L, H, H, H]) 3 6 ∧
    (((Button.mk 9 77).begin 2).1.debounceAll [H, H, H, L, L, L, L, H, H, H])[4]? = some true ∧
    (((Button.mk 9 77).begin 2).1.debounceAll [H, H, H, L, L, L, L, H, H, H])[6]? = some false :=
  have hs : ∀ rd ∈ [H, H, H, L, L, L, L, H, H, H], rd 2 ≤ 1 := by decide
  have hrun : maxLowRun (samples 2 [H, H, H, L, L, L, L, H, H, H]) 3 6 := by decide
  have h4 : (((Button.mk 9 77).begin 2).1.debounceAll
      [H, H, H, L, L, L, L, H, H, H])[4]? = some true := by decide
  ⟨hs, hrun, h4,
    (debounce_at_most_once_per_low_run (Button.mk 9 77) 2 _ hs 3 6 hrun.2.1).2 4 6
      (by decide) (by decide) (by decide) h4⟩

/-- C5: for every register value (and pin), if a `debounce` call returns `true`,
the immediately following `debounce` call that reads a low sample returns
`false`. -/
theorem debounce_edge_not_level (b : Button) (rd1 rd2 : Lines)
    (hfire : (b.debounce rd1).1 = true) (hlow : rd2 b.btn = 0) :
    ((b.debounce rd1).2.debounce rd2).1 = false := by
  have hst : (b.debounce rd1).2.state = 0xFFFC := by
    rw [Button.debounce_fst] at hfire
    exact of_decide_eq_true hfire
  have hlow2 : rd2 (b.debounce rd1).2.btn = 0 := by rw [Button.debounce_btn]; exact hlow
  rw [Button.debounce_fst, Button.debounce_state _ rd2 (by omega), hst, hlow2]
  decide

/-- Witness for C5: from register `0xFFFA` (last two samples high, low) a low
read fires and the low read after it does not. -/
theorem debounce_edge_not_level_witness :
    ((Button.mk 2 0xFFFA).debounce L).1 = true ∧
    (((Button.mk 2 0xFFFA).debounce L).2.debounce L).1 = false :=
  have hfire : ((Button.mk 2 0xFFFA).debounce L).1 = true := by decide
  ⟨hfire, debounce_edge_not_level (Button.mk 2 0xFFFA) L L hfire rfl⟩

/-! ## Idle line, glitches, re-binding -/

namespace Button

/-- A `debounce` call that reads a high sample returns `false`, whatever the
register holds. -/
theorem debounce_high_false (b : Button) (rd : Lines) (h : rd b.btn = 1) :
    (b.debounce rd).1 = false := by
  cases hv : (b.debounce rd).1 with
  | false => rfl
  | true =>
    have := (debounce_fires_iff b rd (by omega)).1 hv
    omega

/-- Every call of a schedule that reads only high samples returns `false`. -/
theorem run_all_high (b : Button) (sched : List (Poll × Lines))
    (hs : ∀ x ∈ sched, x.2 b.btn = 1) : ∀ r ∈ b.run sched, r = false := by
  induction sched generalizing b with
  | nil => intro r hr; simp [run] at hr
  | cons x rest ih =>
    obtain ⟨op, rd⟩ := x
    have hrd : rd b.btn = 1 := hs (op, rd) (List.mem_cons_self _ _)
    have hrest : ∀ x ∈ rest, x.2 (b.poll op rd).2.btn = 1 := by
      intro x hx
      rw [poll_btn]
      exact hs x (List.mem_cons_of_mem _ hx)
    intro r hr
    simp only [run, List.mem_cons] at hr
    rcases hr with h | h
    · rw [h]
      cases op
      · exact debounce_high_false b rd hrd
      · exact longpress_false b rd
    · exact ih (b.poll op rd).2 hrest r h

end Button

/-- C6: on an instance just initialised by `begin(p)`, for every schedule of
`debounce` and `longpress` calls of any length, in any order, whose samples on
pin `p` are all high, every call returns (one result per call) and every call
returns `false`; in particular this holds when only `debounce` or only
`longpress` is polled. -/
theorem all_high_all_false (b0 : Button) (p : Nat) (sched : List (Poll × Lines))
    (hs : ∀ x ∈ sched, x.2 p = 1) :
    ((b0.begin p).1.run sched).length = sched.length ∧
    ∀ r ∈ (b0.begin p).1.run sched, r = false :=
  ⟨Button.run_length _ _, Button.run_all_high (b0.begin p).1 sched hs⟩

/-- Witness for C6: six high samples, polled alternately by `debounce` and
`longpress`. -/
theorem all_high_all_false_witness :
    (∀ x ∈ idleSchedule, x.2 2 = 1) ∧
    (((Button.mk 9 77).begin 2).1.run idleSchedule).length = idleSchedule.length ∧
    ∀ r ∈ ((Button.mk 9 77).begin 2).1.run idleSchedule, r = false :=
  have hs : ∀ x ∈ idleSchedule, x.2 2 = 1 := by decide
  ⟨hs, all_high_all_false (Button.mk 9 77) 2 idleSchedule hs⟩

/-- C7: polled only by `debounce` after `begin(p)`, a sample sequence without two
consecutive low samples makes every call return `false`. -/
theorem debounce_rejects_glitches (b0 : Button) (p : Nat) (reads : List Lines)
    (hs : ∀ rd ∈ reads, rd p ≤ 1)
    (hglitch : ∀ k : Nat, ¬ ((samples p reads)[k]? = some 0 ∧ (samples p reads)[k + 1]? = some 0)) :
    ((b0.begin p).1.debounceAll reads).length = reads.length ∧
    ∀ r ∈ (b0.begin p).1.debounceAll reads, r = false := by
  refine ⟨Button.debounceAll_length _ _, ?_⟩
  intro r hr
  obtain ⟨n, hlen, hn⟩ := List.getElem_of_mem hr
  cases r with
  | false => rfl
  | true =>
    have hn2 : ((b0.begin p).1.debounceAll reads)[n]? = some true := by
      rw [List.getElem?_eq_getElem hlen, hn]
    obtain ⟨h2, -, hlo1, hlo0⟩ := (Button.begin_debounceAll_fires_iff b0 p reads hs n).1 hn2
    have e : n - 1 + 1 = n := by omega
    exact absurd ⟨hlo1, by rw [e]; exact hlo0⟩ (hglitch (n - 1))

/-- Witness for C7 on scenario 2, `HHHLHLHHH`. -/
theorem debounce_rejects_glitches_witness :
    (∀ rd ∈ [H, H, H, L, H, L, H, H, H], rd 2 ≤ 1) ∧
    (∀ r ∈ ((Button.mk 9 77).begin 2).1.debounceAll [H, H, H, L, H, L, H, H, H], r = false) :=
  have hs : ∀ rd ∈ [H, H, H, L, H, L, H, H, H], rd 2 ≤ 1 := by decide
  have hg : ∀ k : Nat, ¬ ((samples 2 [H, H, H, L, H, L, H, H, H])[k]? = some 0 ∧
      (samples 2 [H, H, H, L, H, L, H, H, H])[k + 1]? = some 0) := by
    intro k
    by_cases hk : k < 9
    · interval_cases k <;> decide
    · intro h
      rw [List.getElem?_eq_none (by simp [samples]; omega)] at h
      simp at h
  ⟨hs, (debounce_rejects_glitches (Button.mk 9 77) 2 _ hs hg).2⟩

/-- C8: for every prior instance state and every pin `p`, `begin(p)` sets the pin
to `p` and the register to zero (and configures the line as input with pull-up),
so after re-binding every schedule of samples and poll calls gives the results,
and leaves the instance in the state, of any other instance just bound to `p`. -/
theorem begin_resets (b b1 : Button) (p : Nat) (sched : List (Poll × Lines)) :
    (b.begin p).1 = Button.mk p 0 ∧
    (b.begin p).2 = [HwCall.pinModeInputPullup p] ∧
    (b.begin p).1.run sched = (b1.begin p).1.run sched ∧
    (b.begin p).1.after sched = (b1.begin p).1.after sched :=
  ⟨rfl, rfl, rfl, rfl⟩

/-! ## Long press: what is never reported -/

namespace Button

/-- In a main loop that drives both polls, the `longpress` component of every
pair is `false`. -/
theorem bothAll_snd_false (b : Button) (debounceFirst : Bool) (reads : List Lines) :
    ∀ x ∈ b.bothAll debounceFirst reads, x.2 = false := by
  induction reads generalizing b with
  | nil => intro x hx; simp [bothAll] at hx
  | cons rd rest ih =>
    intro x hx
    cases debounceFirst
    · simp only [bothAll, Bool.false_eq_true, if_false, List.mem_cons] at hx
      rcases hx with h | h
      · rw [h]; exact longpress_false b rd
      · exact ih _ x h
    · simp only [bothAll, if_true, List.mem_cons] at hx
      rcases hx with h | h
      · rw [h]; exact longpress_false _ rd
      · exact ih _ x h

/-- No entry of a `longpress`-only run is `true`. -/
theorem longpressAll_ne_true (b : Button) (reads : List Lines) (n : Nat) :
    ¬ (b.longpressAll reads)[n]? = some true := by
  rw [longpressAll_eq_replicate]
  intro h
  have hmem := List.getElem?_mem h
  simp at hmem

end Button

/-- C9: polled only by `longpress` after `begin(p)`, every call returns, within
every maximal run `i..j` of consecutive low samples the number of calls that
return `true` is at most one, and when the run is shorter than 60 samples every
call of the run returns `false`. -/
theorem longpress_at_most_once_never_short (b0 : Button) (p : Nat) (reads : List Lines)
    (i j : Nat) (hrun : maxLowRun (samples p reads) i j) :
    ((b0.begin p).1.longpressAll reads).length = reads.length ∧
    ((((b0.begin p).1.longpressAll reads).drop i).take (j + 1 - i)).count true ≤ 1 ∧
    (j + 1 - i < 60 → ∀ n : Nat, i ≤ n → n ≤ j →
      ((b0.begin p).1.longpressAll reads)[n]? = some false) := by
  refine ⟨Button.longpressAll_length _ _, ?_, ?_⟩
  · rw [Button.longpressAll_eq_replicate]
    have : List.count true ((List.replicate reads.length false).drop i |>.take (j + 1 - i)) = 0 := by
      rw [List.count_eq_zero]
      intro hmem
      have h1 := List.mem_of_mem_take hmem
      have h2 := List.mem_of_mem_drop h1
      simp at h2
    omega
  · intro _ n hin hnj
    have hlow : (samples p reads)[n]? = some 0 := hrun.2.1 n (by omega) hin
    have hlen : n < ((b0.begin p).1.longpressAll reads).length := by
      rw [Button.longpressAll_length]
      by_contra hc
      rw [List.getElem?_eq_none (by simp [samples]; omega)] at hlow
      simp at hlow
    exact Button.getElem?_false_of_not_true _ n hlen (Button.longpressAll_ne_true _ reads n)

/-- Witness for C9 on `HHLLLH`: the maximal low run `2..4` has three samples and
the call at index 3 returns `false`. -/
theorem longpress_at_most_once_never_short_witness :
    maxLowRun (samples 2 [H, H, L, L, L, H]) 2 4 ∧
    (((Button.mk 9 77).begin 2).1.longpressAll [H, H, L, L, L, H])[3]? = some false :=
  have hrun : maxLowRun (samples 2 [H, H, L, L, L, H]) 2 4 := by decide
  ⟨hrun, (longpress_at_most_once_never_short (Button.mk 9 77) 2 _ 2 4 hrun).2.2
    (by decide) 3 (by decide) (by decide)⟩

/-- C11, counterexample: on `HHLLHHLLHHH` after `begin`, `debounce` returns `true`
on two calls, index 3 and index 7; index 7 lies in the second low run `6..7`. -/
theorem debounce_scenario6_fires_twice :
    ((Button.mk 0 0).begin 2).1.debounceAll scenario6
      = [false, false, false, true, false, false, false, true, false, false, false] ∧
    maxLowRun (samples 2 scenario6) 6 7 ∧
    (((Button.mk 0 0).begin 2).1.debounceAll scenario6)[7]? = some true ∧
    (((Button.mk 0 0).begin 2).1.debounceAll scenario6).count true = 2 := by
  decide

/-- C11, amended: on the samples `HHLLHHLLHHH` read on the bound pin after
`begin(p)`, `debounce` returns once per sample and returns `true` on exactly two
calls, the second `L` of each low run (indices 3 and 7): one high read before a
low run is enough. -/
theorem debounce_scenario6_each_run (b0 : Button) (p : Nat) (reads : List Lines)
    (h : samples p reads = [1, 1, 0, 0, 1, 1, 0, 0, 1, 1, 1]) (n : Nat) :
    ((b0.begin p).1.debounceAll reads).length = 11 ∧
    (((b0.begin p).1.debounceAll reads)[n]? = some true ↔ n = 3 ∨ n = 7) := by
  have hlen : reads.length = 11 := by
    have := congrArg List.length h
    simpa [samples] using this
  have hs : ∀ rd ∈ reads, rd p ≤ 1 := by
    intro rd hrd
    have hm : rd p ∈ samples p reads := List.mem_map_of_mem (fun rd => rd p) hrd
    rw [h] at hm
    simp at hm
    omega
  refine ⟨by rw [Button.debounceAll_length, hlen], ?_⟩
  rw [Button.begin_debounceAll_fires_iff b0 p reads hs n, h]
  by_cases hn : n < 11
  · interval_cases n <;> simp
  · have hnone : ([1, 1, 0, 0, 1, 1, 0, 0, 1, 1, 1] : List Nat)[n]? = none :=
      List.getElem?_eq_none (by simp; omega)
    rw [hnone]
    constructor
    · intro hh; exact absurd hh.2.2.2 (by simp)
    · intro hh; omega

/-- Witness for the amended C11: scenario 6 on pin 2, the call at index 7. -/
theorem debounce_scenario6_each_run_witness :
    samples 2 scenario6 = [1, 1, 0, 0, 1, 1, 0, 0, 1, 1, 1] ∧
    (((Button.mk 9 77).begin 2).1.debounceAll scenario6)[7]? = some true :=
  have h : samples 2 scenario6 = [1, 1, 0, 0, 1, 1, 0, 0, 1, 1, 1] := by decide
  ⟨h, ((debounce_scenario6_each_run (Button.mk 9 77) 2 scenario6 h 7).2).2 (Or.inr rfl)⟩

/-- C12, counterexample: four low samples after `begin`; every `debounce` call
returns `false`, so the number of calls that return `true` is 0, not 1. -/
theorem debounce_stuck_low_no_event :
    ((Button.mk 0 0).begin 2).1.debounceAll [L, L, L, L] = [false, false, false, false] ∧
    (((Button.mk 0 0).begin 2).1.debounceAll [L, L, L, L]).count true = 0 := by
  decide

/-- C12, amended: when every sample read on the bound pin after `begin(p)` is
low, `debounce` returns once per sample and every call returns `false`: the
register starts at zero, so no high sample precedes the low run. -/
theorem debounce_stuck_low_all_false (b0 : Button) (p : Nat) (reads : List Lines)
    (hlow : ∀ rd ∈ reads, rd p = 0) :
    ((b0.begin p).1.debounceAll reads).length = reads.length ∧
    ∀ r ∈ (b0.begin p).1.debounceAll reads, r = false := by
  refine ⟨Button.debounceAll_length _ _, ?_⟩
  have hs : ∀ rd ∈ reads, rd p ≤ 1 := by
    intro rd hrd
    rw [hlow rd hrd]
    omega
  intro r hr
  obtain ⟨n, hlen, hn⟩ := List.getElem_of_mem hr
  cases r with
  | false => rfl
  | true =>
    have hn2 : ((b0.begin p).1.debounceAll reads)[n]? = some true := by
      rw [List.getElem?_eq_getElem hlen, hn]
    obtain ⟨-, hhi, -, -⟩ := (Button.begin_debounceAll_fires_iff b0 p reads hs n).1 hn2
    have hmem : (1 : Nat) ∈ samples p reads := List.getElem?_mem hhi
    obtain ⟨rd, hrd, hone⟩ := List.mem_map.mp hmem
    rw [hlow rd hrd] at hone
    omega

/-- Witness for the amended C12: four low samples on pin 2. -/
theorem debounce_stuck_low_all_false_witness :
    (∀ rd ∈ [L, L, L, L], rd 2 = 0) ∧
    (((Button.mk 9 77).begin 2).1.debounceAll [L, L, L, L]).length = [L, L, L, L].length ∧
    ∀ r ∈ ((Button.mk 9 77).begin 2).1.debounceAll [L, L, L, L], r = false :=
  have hlow : ∀ rd ∈ [L, L, L, L], rd 2 = 0 := by decide
  ⟨hlow, debounce_stuck_low_all_false (Button.mk 9 77) 2 [L, L, L, L] hlow⟩

/-! ## Register width and the mask -/

/-- C13: for every 16-bit register value and every sample in `0, 1`, the 64-bit
expression of `longpress` does not overflow, the register after the call is
that value reduced modulo `2 ^ 16`, it is at most `0xFFFF` and so differs from
`0xf800000000000000`, and `longpress` returns `false`. -/
theorem longpress_unreachable (b : Button) (rd : Lines)
    (hst : b.state < 2 ^ 16) (hs : rd b.btn ≤ 1) :
    (b.state <<< 1) ||| rd b.btn ||| 0xf000000000000000 < 2 ^ 64 ∧
    (b.longpress rd).2.state
      = ((b.state <<< 1) ||| rd b.btn ||| 0xf000000000000000) % 2 ^ 16 ∧
    (b.longpress rd).2.state ≤ 0xFFFF ∧
    (b.longpress rd).2.state ≠ 0xf800000000000000 ∧
    (b.longpress rd).1 = false := by
  have hle : (b.longpress rd).2.state ≤ 0xFFFF := by
    show ((b.state <<< 1) ||| rd b.btn ||| 0xf000000000000000) % 2 ^ 16 ≤ 0xFFFF
    have := Nat.mod_lt ((b.state <<< 1) ||| rd b.btn ||| 0xf000000000000000)
      (show 0 < 2 ^ 16 by norm_num)
    omega
  refine ⟨longpress_no_overflow b.state (rd b.btn) hst hs, rfl, hle, ?_,
    Button.longpress_false b rd⟩
  intro h
  rw [h] at hle
  norm_num at hle

/-- Witness for C13: register `0xFFFF`, low sample. -/
theorem longpress_unreachable_witness :
    (Button.mk 2 0xFFFF).state < 2 ^ 16 ∧ L (Button.mk 2 0xFFFF).btn ≤ 1 ∧
    ((Button.mk 2 0xFFFF).longpress L).2.state ≤ 0xFFFF ∧
    ((Button.mk 2 0xFFFF).longpress L).1 = false :=
  have hst : (Button.mk 2 0xFFFF).state < 2 ^ 16 := by decide
  have hs : L (Button.mk 2 0xFFFF).btn ≤ 1 := by decide
  ⟨hst, hs, (longpress_unreachable (Button.mk 2 0xFFFF) L hst hs).2.2.1,
    (longpress_unreachable (Button.mk 2 0xFFFF) L hst hs).2.2.2.2⟩

/-- C14: for every register value (in particular every 16-bit one) and every
sample in `0, 1`, after a `debounce` call all bits of the register above the low
three are set (`state AND 0xFFF8 = 0xFFF8`), the result is `true` exactly when
the low two bits of the prior register are `1, 0` and the sample is low, and
hence two calls that agree on the low two bits of the prior register and on the
sample return the same boolean. -/
theorem debounce_mask_invariant (b : Button) (rd : Lines) (hs : rd b.btn ≤ 1) :
    (b.debounce rd).2.state &&& 0xFFF8 = 0xFFF8 ∧
    (b.debounce rd).1 = decide (b.state % 4 = 2 ∧ rd b.btn = 0) ∧
    ∀ (b1 : Button) (rd1 : Lines), b1.state % 4 = b.state % 4 → rd1 b1.btn = rd b.btn →
      (b1.debounce rd1).1 = (b.debounce rd).1 := by
  have key : ∀ (c : Button) (r : Lines), r c.btn ≤ 1 →
      (c.debounce r).1 = decide (c.state % 4 = 2 ∧ r c.btn = 0) := by
    intro c r hr
    rw [Bool.eq_iff_iff, Button.debounce_fires_iff c r hr, decide_eq_true_iff]
  refine ⟨?_, key b rd hs, ?_⟩
  · rw [Button.debounce_state b rd hs]
    have hlt : (2 * b.state + rd b.btn) % 8 < 8 := Nat.mod_lt _ (by norm_num)
    generalize (2 * b.state + rd b.btn) % 8 = r at hlt
    interval_cases r <;> rfl
  · intro b1 rd1 hst1 hrd1
    rw [key b1 rd1 (by omega), key b rd hs, hst1, hrd1]

/-- Witness for C14: register `0xFFFA`, low sample; the register `2` has the same
low two bits. -/
theorem debounce_mask_invariant_witness :
    L (Button.mk 2 0xFFFA).btn ≤ 1 ∧
    ((Button.mk 2 0xFFFA).debounce L).2.state &&& 0xFFF8 = 0xFFF8 ∧
    ((Button.mk 2 2).debounce L).1 = ((Button.mk 2 0xFFFA).debounce L).1 :=
  have hs : L (Button.mk 2 0xFFFA).btn ≤ 1 := by decide
  ⟨hs, (debounce_mask_invariant (Button.mk 2 0xFFFA) L hs).1,
    (debounce_mask_invariant (Button.mk 2 0xFFFA) L hs).2.2 (Button.mk 2 2) L
      (by decide) rfl⟩

/-! ## The shared three-sample window -/

namespace Button

/-- Either poll moves bit 1 of the register to bit 2. -/
theorem poll_bit_two (b : Button) (op : Poll) (rd : Lines) (hs : rd b.btn ≤ 1) :
    (b.poll op rd).2.state / 4 % 2 = b.state / 2 % 2 := by
  cases op
  · show (b.debounce rd).2.state / 4 % 2 = _
    rw [debounce_state b rd hs]; omega
  · show (b.longpress rd).2.state / 4 % 2 = _
    rw [longpress_state b rd hs]; norm_num; omega

/-- After a schedule, the low three bits of the register are the last three
entries of the list made of the three low bits before the schedule followed by
the samples read. -/
theorem after_low_bits (b : Button) (sched : List (Poll × Lines))
    (hs : ∀ x ∈ sched, x.2 b.btn ≤ 1) :
    (b.after sched).state % 8 =
      4 * ([b.state / 4 % 2, b.state / 2 % 2, b.state % 2]
            ++ sched.map fun x => x.2 b.btn).getD sched.length 0 +
      2 * ([b.state / 4 % 2, b.state / 2 % 2, b.state % 2]
            ++ sched.map fun x => x.2 b.btn).getD (sched.length + 1) 0 +
      ([b.state / 4 % 2, b.state / 2 % 2, b.state % 2]
            ++ sched.map fun x => x.2 b.btn).getD (sched.length + 2) 0 := by
  induction sched generalizing b with
  | nil => simp [after]; omega
  | cons x rest ih =>
    obtain ⟨op, rd⟩ := x
    have hrd : rd b.btn ≤ 1 := hs (op, rd) (List.mem_cons_self _ _)
    have hrest : ∀ x ∈ rest, x.2 (b.poll op rd).2.btn ≤ 1 := by
      intro x hx
      rw [poll_btn]
      exact hs x (List.mem_cons_of_mem _ hx)
    have := ih (b.poll op rd).2 hrest
    obtain ⟨h1, h0⟩ := poll_low_bits b op rd hrd
    rw [poll_bit_two b op rd hrd, h1, h0, poll_btn] at this
    simp only [after, this, List.length_cons, List.map_cons, List.cons_append, List.nil_append]
    have e2 : rest.length + 1 + 2 = (rest.length + 2) + 1 := by omega
    rw [e2]
    simp only [List.getD_cons_succ]

end Button

namespace Button

/-- Cutting the samples after the first `n` does not change the first `n + 3`
entries of the padded list. -/
theorem getD_padded_take (l : List Nat) (n k : Nat) (hk : k < n + 3) :
    ([0, 0, 0] ++ l.take n).getD k 0 = ([0, 0, 0] ++ l).getD k 0 := by
  match k with
  | 0 => rfl
  | 1 => rfl
  | 2 => rfl
  | k + 3 =>
    simp only [List.cons_append, List.nil_append, List.getD_cons_succ]
    rw [List.getD_eq_getElem?_getD, List.getD_eq_getElem?_getD,
      List.getElem?_take, if_pos (by omega : k < n)]

end Button

/-- C15: for every schedule of `debounce` and `longpress` calls, in any order, on
one instance after `begin(p)`, with samples in `0, 1`: after the first `n` calls
the low three bits of the register are the last three samples read by either
operation, oldest in bit 2, samples before `begin` counting as `0`; and call `n`
returns `true` if and only if it is a `debounce` call and the last three samples
read up to and including its own are `1, 0, 0`. -/
theorem shared_register_window (b0 : Button) (p : Nat) (sched : List (Poll × Lines))
    (hs : ∀ x ∈ sched, x.2 p ≤ 1) :
    (∀ n : Nat, n ≤ sched.length →
      ((b0.begin p).1.after (sched.take n)).state % 8 =
        4 * (paddedSamples p sched).getD n 0 + 2 * (paddedSamples p sched).getD (n + 1) 0 +
          (paddedSamples p sched).getD (n + 2) 0) ∧
    (∀ n : Nat, ((b0.begin p).1.run sched)[n]? = some true ↔
      (sched[n]?).map Prod.fst = some Poll.debounce ∧
      (paddedSamples p sched)[n + 1]? = some 1 ∧ (paddedSamples p sched)[n + 2]? = some 0 ∧
        (paddedSamples p sched)[n + 3]? = some 0) := by
  constructor
  · intro n hn
    have hs2 : ∀ x ∈ sched.take n, x.2 (b0.begin p).1.btn ≤ 1 := by
      intro x hx
      exact hs x (List.mem_of_mem_take hx)
    have key := Button.after_low_bits (b0.begin p).1 (sched.take n) hs2
    have hlen : (sched.take n).length = n := by
      rw [List.length_take]; omega
    have hmap : (sched.take n).map (fun x => x.2 p)
        = (samples p (sched.map Prod.snd)).take n := by
      simp only [samples, List.map_map, List.map_take]
      rfl
    simp only [Button.begin_state, Button.begin_btn, hlen, hmap] at key
    rw [key]
    have z : ([0 / 4 % 2, 0 / 2 % 2, 0 % 2] : List Nat) = [0, 0, 0] := rfl
    rw [z, Button.getD_padded_take _ n n (by omega),
      Button.getD_padded_take _ n (n + 1) (by omega),
      Button.getD_padded_take _ n (n + 2) (by omega)]
    rfl
  · intro n
    have key := Button.run_fires_iff (b0.begin p).1 sched hs n
    have hh : history (b0.begin p).1 sched = [0, 0] ++ samples p (sched.map Prod.snd) := by
      simp [history, samples, Button.begin_state, Button.begin_btn]
    rw [hh] at key
    rw [key]
    simp [paddedSamples]

/-- Witness for C15 on `debounce H; longpress L; debounce L; longpress H`: after
three calls the low three bits are `1, 0, 0`, and the third call, a `debounce`
call, returns `true`. -/
theorem shared_register_window_witness :
    (∀ x ∈ mixedSchedule, x.2 2 ≤ 1) ∧
    (((Button.mk 9 77).begin 2).1.after (mixedSchedule.take 3)).state % 8 = 4 ∧
    (((Button.mk 9 77).begin 2).1.run mixedSchedule)[2]? = some true :=
  have hs : ∀ x ∈ mixedSchedule, x.2 2 ≤ 1 := by decide
  ⟨hs,
    ((shared_register_window (Button.mk 9 77) 2 mixedSchedule hs).1 3 (by decide)).trans
      (by decide),
    ((shared_register_window (Button.mk 9 77) 2 mixedSchedule hs).2 2).2
      ⟨by decide, by decide, by decide, by decide⟩⟩

end Silberling
